import Mathlib

/-!
Verification development for the 112-helpline analytics dashboard.

The embedding below models the data transformations of the repository:
the festival significance scorer (`modules/festivals_utils.py`), the
per-row festival tagger (`app.py`), the ICS interval normalisation
(`modules/festivals_ics.py`), the record normaliser's coordinate and
category handling (`modules/data_loader.py`) and the hourly aggregator
(`modules/analysis.py`).

Modelling conventions:
* Calendar dates are natural numbers counting days from a fixed epoch
  chosen to fall on a Monday, so a date `d` has weekday `d % 7` with
  Monday = 0 — exactly Python's `date.weekday()` convention.
* Timestamps (used by the tagger and the ICS feed) are rationals
  measured in days, so "subtract one day" is subtraction of 1.
* Python floats are modelled by rationals; pandas `NaN`/`NaT` cells by
  `Option`/dedicated constructors.
* A pandas `DataFrame` is a list of rows; a `groupby(...).size()`
  series is modelled by its index (the deduplicated key list) together
  with per-key counts.
-/

namespace Helpline

/-- One call record as consumed by the significance scorer: the
normalised free-text category and the calendar date of the call
(days since a Monday epoch). -/
structure CallRecord where
  category : String
  date : Nat
deriving DecidableEq, Repr

/-- ASCII case folding modelling Python's `str.lower()`, written
structurally on the character list so that concrete instances reduce. -/
def py_lower (s : String) : String :=
  ⟨s.data.map Char.toLower⟩

/-- Whitespace trimming modelling Python's `str.strip()`. -/
def py_strip (s : String) : String :=
  ⟨((s.data.dropWhile Char.isWhitespace).reverse.dropWhile Char.isWhitespace).reverse⟩

/-- Case-insensitive category comparison,
`df['category'].astype(str).str.lower() == category.lower()`. -/
def lower_match (a b : String) : Bool :=
  py_lower a == py_lower b

/-- `df_cat = df[df['category'].astype(str).str.lower() == category.lower()]`. -/
def df_cat_filter (recs : List CallRecord) (category : String) : List CallRecord :=
  recs.filter (fun r => lower_match r.category category)

/-- Index of `counts_by_date = df_cat.groupby('__date').size()`: the
distinct dates appearing in the category-filtered records. -/
def counts_index (catRecs : List CallRecord) : List Nat :=
  (catRecs.map (fun r => r.date)).dedup

/-- The size of the group at date `d`: how many category-filtered
records fall on that date. -/
def counts_size (catRecs : List CallRecord) (d : Nat) : Nat :=
  (catRecs.filter (fun r => r.date == d)).length

/-- `counts_by_date.get(cur, 0)`: the stored group size when the date is
in the index, and the default 0 otherwise. -/
def counts_get (catRecs : List CallRecord) (d : Nat) : Nat :=
  if d ∈ counts_index catRecs then counts_size catRecs d else 0

/-- Mean of the series values at the given index dates,
`series.mean()` restricted to a sublist of the index. -/
def series_mean (catRecs : List CallRecord) (ds : List Nat) : ℚ :=
  ((ds.map (fun d => (counts_size catRecs d : ℚ))).sum) / (ds.length : ℚ)

/-- Weekday baseline of `filter_significant_festivals`: the mean group
size over all index dates sharing `cur`'s weekday; if none exist, the
mean over the whole index; 0 for an empty index. -/
def baseline (catRecs : List CallRecord) (cur : Nat) : ℚ :=
  let same_wd := (counts_index catRecs).filter (fun d => d % 7 == cur % 7)
  if same_wd = [] then
    (if counts_index catRecs = [] then 0 else series_mean catRecs (counts_index catRecs))
  else series_mean catRecs same_wd

/-- `baseline_adj = baseline if baseline > 0 else 1.0`. -/
def baseline_adj (catRecs : List CallRecord) (cur : Nat) : ℚ :=
  if 0 < baseline catRecs cur then baseline catRecs cur else 1

/-- `pct = (day_count - baseline_adj) / baseline_adj * 100.0`. -/
def pct (catRecs : List CallRecord) (cur : Nat) : ℚ :=
  ((counts_get catRecs cur : ℚ) - baseline_adj catRecs cur) / baseline_adj catRecs cur * 100

/-- Running state of the per-festival day loop:
`max_pct`, `max_count`, `max_day`. -/
structure ScanState where
  max_pct : ℚ
  max_count : Nat
  max_day : Option Nat
deriving DecidableEq, Repr

/-- Loop entry state: `max_pct = -999.0`, `max_count = 0`, `max_day = None`. -/
def init_state : ScanState := ⟨-999, 0, none⟩

/-- One iteration of the day loop: update the running maximum when
`day_count >= min_calls and pct > max_pct` (strict comparison). -/
def day_step (catRecs : List CallRecord) (min_calls : Nat)
    (st : ScanState) (cur : Nat) : ScanState :=
  if min_calls ≤ counts_get catRecs cur ∧ st.max_pct < pct catRecs cur then
    ⟨pct catRecs cur, counts_get catRecs cur, some cur⟩
  else st

/-- The dates visited by `while cur <= end_date`, in chronological
order; empty when the end precedes the start. -/
def festival_days (start_date end_date : Nat) : List Nat :=
  (List.range (end_date + 1 - start_date)).map (fun i => start_date + i)

/-- Folding the day loop over one festival interval. -/
def scan_festival (catRecs : List CallRecord) (min_calls : Nat)
    (start_date end_date : Nat) : ScanState :=
  (festival_days start_date end_date).foldl (day_step catRecs min_calls) init_state

/-- One emitted significance dict: festival name, interval bounds and
the peak day's percentage, count and date. -/
structure SignificanceResult where
  name : String
  start_ts : Nat
  end_ts : Nat
  max_pct : ℚ
  max_count : Nat
  max_day : Nat
deriving DecidableEq, Repr

/-- Per-festival emission: a result when `max_day is not None and
max_pct >= threshold_pct`, nothing otherwise.  Interval endpoints are
the dates obtained from the festival's timestamps. -/
def score_festival (catRecs : List CallRecord) (threshold_pct : ℚ) (min_calls : Nat)
    (name : String) (start_date end_date : Nat) : Option SignificanceResult :=
  match (scan_festival catRecs min_calls start_date end_date).max_day with
  | some d =>
      if threshold_pct ≤ (scan_festival catRecs min_calls start_date end_date).max_pct then
        some ⟨name, start_date, end_date,
              (scan_festival catRecs min_calls start_date end_date).max_pct,
              (scan_festival catRecs min_calls start_date end_date).max_count, d⟩
      else none
  | none => none

/-- `filter_significant_festivals(festivals, df, category, threshold_pct,
min_calls)`: empty for a `None` or empty frame, empty when no record
matches the category, and otherwise one optional result per festival in
input order. -/
def filter_significant_festivals (festivals : List (String × Nat × Nat))
    (df : Option (List CallRecord)) (category : String)
    (threshold_pct : ℚ) (min_calls : Nat) : List SignificanceResult :=
  match df with
  | none => []
  | some recs =>
      if recs = [] then []
      else
        if df_cat_filter recs category = [] then []
        else festivals.filterMap (fun f =>
          score_festival (df_cat_filter recs category) threshold_pct min_calls f.1 f.2.1 f.2.2)

/-- A small concrete record set used to evaluate the model: six crime
calls on date 7 (a Monday), one crime call on date 0 (also a Monday),
and one fire call on date 7. -/
def demoRecs : List CallRecord :=
  List.replicate 6 ⟨"crime", 7⟩ ++ [⟨"crime", 0⟩, ⟨"Fire", 7⟩]

/-! Spec-side reformulation of the baseline computation (for C3): the
count table viewed as a finite set of dates with Finset means. -/

/-- The set of calendar dates present in the category count table. -/
def specDates (catRecs : List CallRecord) : Finset Nat :=
  (catRecs.map (fun r => r.date)).toFinset

/-- Mean of the count table over a finite set of dates. -/
def specMean (catRecs : List CallRecord) (s : Finset Nat) : ℚ :=
  (s.sum fun x => (counts_size catRecs x : ℚ)) / (s.card : ℚ)

/-- Stated from the spec's wording: the baseline for date `d` is the
mean count over all table dates sharing `d`'s weekday, falling back to
the mean of the entire table when no same-weekday date exists, and 0
for an empty table. -/
def specBaseline (catRecs : List CallRecord) (d : Nat) : ℚ :=
  if ((specDates catRecs).filter (fun x => x % 7 = d % 7)).Nonempty then
    specMean catRecs ((specDates catRecs).filter (fun x => x % 7 = d % 7))
  else if (specDates catRecs).Nonempty then specMean catRecs (specDates catRecs)
  else 0

/-- Stated from the spec's wording: adjust a non-positive baseline to 1
and take the relative deviation of the day count (0 for absent dates)
as a percentage. -/
def specPct (catRecs : List CallRecord) (d : Nat) : ℚ :=
  ((counts_size catRecs d : ℚ)
      - (if 0 < specBaseline catRecs d then specBaseline catRecs d else 1))
    / (if 0 < specBaseline catRecs d then specBaseline catRecs d else 1) * 100

/-! The festival tagger of `app.py` and the catalog intervals it
consumes. Timestamps are rationals measured in days. -/

/-- A catalog interval: name with start/end timestamps. -/
structure FestivalInterval where
  name : String
  start_ts : ℚ
  end_ts : ℚ
deriving DecidableEq, Repr

/-- `tag_festival_for_row`: walk the catalog in order and return the
name of the first interval containing the timestamp, else
"Non-Festival".  A missing (`NaT`) timestamp fails every pandas
comparison, so the loop falls through to "Non-Festival". -/
def tag_festival_for_row (fests : List FestivalInterval) (ts : Option ℚ) : String :=
  match fests with
  | [] => "Non-Festival"
  | f :: rest =>
    match ts with
    | some t =>
        if f.start_ts ≤ t ∧ t ≤ f.end_ts then f.name else tag_festival_for_row rest ts
    | none => tag_festival_for_row rest ts

/-! The ICS catalog normalisation of `modules/festivals_ics.py`. -/

/-- One VEVENT of the feed: summary, whether DTSTART is date-only (an
all-day event, whose DTEND is exclusive), and start/end timestamps. -/
structure IcsEvent where
  summary : String
  date_only : Bool
  dtstart : ℚ
  dtend : ℚ
deriving DecidableEq, Repr

/-- Per-event normalisation of `fetch_festivals_from_ics`: all-day
events get one day subtracted from their exclusive end; an end earlier
than the start is then clamped to the start. -/
def normalize_event (ev : IcsEvent) : FestivalInterval :=
  let start := ev.dtstart
  let e1 := if ev.date_only then ev.dtend - 1 else ev.dtend
  ⟨ev.summary, start, if e1 < start then start else e1⟩

/-- The catalog produced from a parsed feed. -/
def fetch_festivals_from_ics (events : List IcsEvent) : List FestivalInterval :=
  events.map normalize_event

/-! Coordinate handling of `preprocess` in `modules/data_loader.py`. -/

/-- A raw coordinate cell: missing (NaN), non-numeric text, a finite
number, or an infinite numeric value (pandas parses float infinities
from CSV input and passes float `inf` through numeric coercion). -/
inductive RawCell where
  | missing : RawCell
  | text : String → RawCell
  | num : ℚ → RawCell
  | infinite : Bool → RawCell
deriving DecidableEq, Repr

/-- The value of a cell after `pd.to_numeric(..., errors="coerce")`:
unparseable input becomes NaN, numbers pass through. -/
inductive NumCell where
  | nan : NumCell
  | inf : Bool → NumCell
  | fin : ℚ → NumCell
deriving DecidableEq, Repr

/-- `pd.to_numeric(col, errors="coerce")` on one cell. -/
def to_numeric_coerce : RawCell → NumCell
  | .missing => .nan
  | .text _ => .nan
  | .num q => .fin q
  | .infinite p => .inf p

/-- `Series.notna()` on the coerced value. -/
def notna : NumCell → Bool
  | .nan => false
  | .inf _ => true
  | .fin _ => true

/-- Whether the coerced value is a finite number. -/
def is_finite_num : NumCell → Bool
  | .fin _ => true
  | .inf _ => false
  | .nan => false

/-- `df["has_coords"] = df["caller_lat"].notna() & df["caller_lon"].notna()`
after numeric coercion of both coordinate columns. -/
def has_coords (lat lon : RawCell) : Bool :=
  notna (to_numeric_coerce lat) && notna (to_numeric_coerce lon)

/-- Spec-side classification of a cell: it parses to a number at all
(finite or infinite), as opposed to missing or non-numeric text. -/
def parses_to_number : RawCell → Bool
  | .missing => false
  | .text _ => false
  | .num _ => true
  | .infinite _ => true

/-! The hourly aggregator of `modules/analysis.py`.  Each record
contributes its hour of day; `none` models a row whose timestamp failed
to parse, so its `hour` is NaN and `groupby` drops it. -/

/-- The hour values that survive the groupby (NaN dropped). -/
def valid_hours (recs : List (Option Nat)) : List Nat :=
  recs.filterMap id

/-- `df.groupby('hour').size()`: one row per distinct hour present,
carrying its count (index sort order abstracted; keys are unique). -/
def groupby_hour_size (recs : List (Option Nat)) : List (Nat × Nat) :=
  (valid_hours recs).dedup.map (fun h => (h, (valid_hours recs).count h))

/-- `agg_calls_by_hour`: the hours 0–23 left-merged with the groupby
table, missing hours filled with 0 and counts kept as integers. -/
def agg_calls_by_hour (recs : List (Option Nat)) : List (Nat × Nat) :=
  (List.range 24).map (fun h => (h, ((groupby_hour_size recs).lookup h).getD 0))

/-! Category normalisation of `preprocess` and the category
distribution of `modules/analysis.py`. -/

/-- `df["category"].astype(str).str.strip().str.lower()` on one cell:
a NaN cell is first stringified to the literal "nan". -/
def norm_category (raw : Option String) : String :=
  match raw with
  | none => "nan"
  | some s => py_lower (py_strip s)

/-- The normalised category column (one output row per input row). -/
def preprocess_categories (rows : List (Option String)) : List String :=
  rows.map norm_category

/-- `value_counts(dropna=False)` over the category column: one bucket
per distinct value with its count (sort order abstracted). -/
def category_distribution (cats : List String) : List (String × Nat) :=
  cats.dedup.map (fun c => (c, cats.count c))

/-! Basic facts about the per-day percentage computation. -/

theorem baseline_adj_pos (catRecs : List CallRecord) (cur : Nat) :
    0 < baseline_adj catRecs cur := by
  unfold baseline_adj
  split
  · assumption
  · norm_num

theorem pct_ge_neg_hundred (catRecs : List CallRecord) (cur : Nat) :
    -100 ≤ pct catRecs cur := by
  have ha := baseline_adj_pos catRecs cur
  have hc : (0 : ℚ) ≤ (counts_get catRecs cur : ℚ) := Nat.cast_nonneg _
  unfold pct
  have h1 : ((counts_get catRecs cur : ℚ) - baseline_adj catRecs cur) / baseline_adj catRecs cur
      = (counts_get catRecs cur : ℚ) / baseline_adj catRecs cur - 1 := by
    field_simp
  rw [h1]
  have h2 : (0 : ℚ) ≤ (counts_get catRecs cur : ℚ) / baseline_adj catRecs cur :=
    div_nonneg hc ha.le
  nlinarith

/-! Invariants of the running-maximum day loop. -/

theorem day_step_max_pct_le (rs : List CallRecord) (m : Nat) (st : ScanState) (x : Nat) :
    st.max_pct ≤ (day_step rs m st x).max_pct := by
  unfold day_step
  by_cases hc : m ≤ counts_get rs x ∧ st.max_pct < pct rs x
  · rw [if_pos hc]; exact hc.2.le
  · rw [if_neg hc]

theorem foldl_max_pct_mono (rs : List CallRecord) (m : Nat) :
    ∀ (L : List Nat) (st : ScanState),
      st.max_pct ≤ (L.foldl (day_step rs m) st).max_pct := by
  intro L
  induction L with
  | nil => intro st; exact le_refl _
  | cons x xs ih =>
      intro st
      rw [List.foldl_cons]
      exact le_trans (day_step_max_pct_le rs m st x) (ih (day_step rs m st x))

theorem foldl_pct_le (rs : List CallRecord) (m : Nat) :
    ∀ (L : List Nat) (st : ScanState) (d : Nat), d ∈ L → m ≤ counts_get rs d →
      pct rs d ≤ (L.foldl (day_step rs m) st).max_pct := by
  intro L
  induction L with
  | nil => intro st d hd _; cases hd
  | cons x xs ih =>
      intro st d hd hq
      rw [List.foldl_cons]
      rcases List.mem_cons.mp hd with rfl | hmem
      · have h1 : pct rs d ≤ (day_step rs m st d).max_pct := by
          unfold day_step
          by_cases hc : m ≤ counts_get rs d ∧ st.max_pct < pct rs d
          · rw [if_pos hc]
          · rw [if_neg hc]
            push_neg at hc
            exact hc hq
        exact le_trans h1 (foldl_max_pct_mono rs m xs (day_step rs m st d))
      · exact ih (day_step rs m st x) d hmem hq

/-- Consistency of a loop state: a recorded peak day really qualifies
and carries its own percentage and count. -/
def StateOk (rs : List CallRecord) (m : Nat) (st : ScanState) : Prop :=
  ∀ d, st.max_day = some d →
    m ≤ counts_get rs d ∧ st.max_pct = pct rs d ∧ st.max_count = counts_get rs d

/-- A `none` peak is only compatible with the sentinel percentage. -/
def NoneInv (st : ScanState) : Prop := st.max_day = none → st.max_pct = -999

theorem day_step_ok (rs : List CallRecord) (m : Nat) (st : ScanState) (x : Nat)
    (h : StateOk rs m st) : StateOk rs m (day_step rs m st x) := by
  unfold day_step
  by_cases hc : m ≤ counts_get rs x ∧ st.max_pct < pct rs x
  · rw [if_pos hc]
    intro d hd
    obtain rfl : x = d := by simpa using hd
    exact ⟨hc.1, rfl, rfl⟩
  · rw [if_neg hc]; exact h

theorem foldl_ok (rs : List CallRecord) (m : Nat) :
    ∀ (L : List Nat) (st : ScanState), StateOk rs m st →
      StateOk rs m (L.foldl (day_step rs m) st) := by
  intro L
  induction L with
  | nil => intro st h; exact h
  | cons x xs ih =>
      intro st h
      rw [List.foldl_cons]
      exact ih (day_step rs m st x) (day_step_ok rs m st x h)

theorem day_step_none_inv (rs : List CallRecord) (m : Nat) (st : ScanState) (x : Nat)
    (h : NoneInv st) : NoneInv (day_step rs m st x) := by
  unfold day_step
  by_cases hc : m ≤ counts_get rs x ∧ st.max_pct < pct rs x
  · rw [if_pos hc]
    intro hd
    simp at hd
  · rw [if_neg hc]; exact h

theorem foldl_max_day_mem (rs : List CallRecord) (m : Nat) :
    ∀ (L : List Nat) (st : ScanState) (d : Nat),
      (L.foldl (day_step rs m) st).max_day = some d → d ∈ L ∨ st.max_day = some d := by
  intro L
  induction L with
  | nil => intro st d h; exact Or.inr h
  | cons x xs ih =>
      intro st d h
      rw [List.foldl_cons] at h
      rcases ih (day_step rs m st x) d h with h1 | h1
      · exact Or.inl (List.mem_cons_of_mem _ h1)
      · unfold day_step at h1
        by_cases hc : m ≤ counts_get rs x ∧ st.max_pct < pct rs x
        · rw [if_pos hc] at h1
          obtain rfl : x = d := by simpa using h1
          exact Or.inl (List.mem_cons_self _ _)
        · rw [if_neg hc] at h1; exact Or.inr h1

theorem day_step_keeps_some (rs : List CallRecord) (m : Nat) (st : ScanState) (x e : Nat)
    (h : st.max_day = some e) : ∃ e2, (day_step rs m st x).max_day = some e2 := by
  unfold day_step
  by_cases hc : m ≤ counts_get rs x ∧ st.max_pct < pct rs x
  · rw [if_pos hc]; exact ⟨x, rfl⟩
  · rw [if_neg hc]; exact ⟨e, h⟩

theorem foldl_keeps_some (rs : List CallRecord) (m : Nat) :
    ∀ (L : List Nat) (st : ScanState) (e : Nat), st.max_day = some e →
      ∃ e2, (L.foldl (day_step rs m) st).max_day = some e2 := by
  intro L
  induction L with
  | nil => intro st e h; exact ⟨e, h⟩
  | cons x xs ih =>
      intro st e h
      rw [List.foldl_cons]
      obtain ⟨e2, h2⟩ := day_step_keeps_some rs m st x e h
      exact ih (day_step rs m st x) e2 h2

theorem foldl_qual_some (rs : List CallRecord) (m : Nat) :
    ∀ (L : List Nat) (st : ScanState) (d : Nat), d ∈ L → m ≤ counts_get rs d → NoneInv st →
      ∃ e, (L.foldl (day_step rs m) st).max_day = some e := by
  intro L
  induction L with
  | nil => intro st d hd; cases hd
  | cons x xs ih =>
      intro st d hd hq hinv
      rw [List.foldl_cons]
      rcases List.mem_cons.mp hd with rfl | hmem
      · rcases hst : st.max_day with _ | e
        · have h999 := hinv hst
          have hlt : st.max_pct < pct rs d := by
            rw [h999]
            have := pct_ge_neg_hundred rs d
            linarith
          have hup : (day_step rs m st d).max_day = some d := by
            unfold day_step; rw [if_pos ⟨hq, hlt⟩]
          exact foldl_keeps_some rs m xs _ d hup
        · obtain ⟨e2, h2⟩ := day_step_keeps_some rs m st d e hst
          exact foldl_keeps_some rs m xs _ e2 h2
      · exact ih (day_step rs m st x) d hmem hq (day_step_none_inv rs m st x hinv)

theorem foldl_day_change_strict (rs : List CallRecord) (m : Nat) :
    ∀ (L : List Nat) (st : ScanState),
      (L.foldl (day_step rs m) st).max_day ≠ st.max_day →
      st.max_pct < (L.foldl (day_step rs m) st).max_pct := by
  intro L
  induction L with
  | nil => intro st h; exact absurd rfl h
  | cons x xs ih =>
      intro st h
      rw [List.foldl_cons] at h ⊢
      by_cases hc : m ≤ counts_get rs x ∧ st.max_pct < pct rs x
      · have hstep : day_step rs m st x = ⟨pct rs x, counts_get rs x, some x⟩ := by
          unfold day_step; rw [if_pos hc]
        have h2 : (day_step rs m st x).max_pct ≤ (xs.foldl (day_step rs m) (day_step rs m st x)).max_pct :=
          foldl_max_pct_mono rs m xs _
        have h3 : (day_step rs m st x).max_pct = pct rs x := by rw [hstep]
        rw [h3] at h2
        exact lt_of_lt_of_le hc.2 h2
      · have hstep : day_step rs m st x = st := by unfold day_step; rw [if_neg hc]
        rw [hstep] at h ⊢
        exact ih st h

theorem foldl_tie_earliest (rs : List CallRecord) (m : Nat) :
    ∀ (L : List Nat) (st : ScanState),
      List.Pairwise (· < ·) L → StateOk rs m st → NoneInv st →
      (∀ e, st.max_day = some e → ∀ d ∈ L, e < d) →
      ∀ d0, (L.foldl (day_step rs m) st).max_day = some d0 →
        ∀ d ∈ L, m ≤ counts_get rs d →
          pct rs d = (L.foldl (day_step rs m) st).max_pct → d0 ≤ d := by
  intro L
  induction L with
  | nil => intro st _ _ _ _ d0 _ d hd; cases hd
  | cons x xs ih =>
      intro st hpw hok hninv hafter d0 hfold d hd hq hpeq
      rw [List.foldl_cons] at hfold hpeq
      rcases List.pairwise_cons.mp hpw with ⟨hxlt, hpw2⟩
      by_cases hc : m ≤ counts_get rs x ∧ st.max_pct < pct rs x
      · have hstep : day_step rs m st x = ⟨pct rs x, counts_get rs x, some x⟩ := by
          unfold day_step; rw [if_pos hc]
        rcases List.mem_cons.mp hd with rfl | hmem
        · by_cases hch : (xs.foldl (day_step rs m) (day_step rs m st d)).max_day
              = (day_step rs m st d).max_day
          · rw [hch, hstep] at hfold
            obtain rfl : d = d0 := by simpa using hfold
            exact le_refl _
          · exfalso
            have hlt := foldl_day_change_strict rs m xs (day_step rs m st d) hch
            have hpx : (day_step rs m st d).max_pct = pct rs d := by rw [hstep]
            rw [hpx] at hlt
            exact absurd hlt (not_lt.mpr (le_of_eq hpeq.symm))
        · refine ih (day_step rs m st x) hpw2 (day_step_ok rs m st x hok)
            (day_step_none_inv rs m st x hninv) ?_ d0 hfold d hmem hq hpeq
          intro e he dd hdd
          rw [hstep] at he
          obtain rfl : x = e := by simpa using he
          exact hxlt dd hdd
      · have hstep : day_step rs m st x = st := by unfold day_step; rw [if_neg hc]
        rw [hstep] at hfold hpeq
        rcases List.mem_cons.mp hd with rfl | hmem
        · push_neg at hc
          have hle : pct rs d ≤ st.max_pct := hc hq
          have hge : st.max_pct ≤ (xs.foldl (day_step rs m) st).max_pct :=
            foldl_max_pct_mono rs m xs st
          rcases hst : st.max_day with _ | e
          · exfalso
            have h999 := hninv hst
            have hb := pct_ge_neg_hundred rs d
            rw [hpeq] at hb
            rw [h999] at hge
            linarith
          · by_cases hch : (xs.foldl (day_step rs m) st).max_day = st.max_day
            · rw [hch, hst] at hfold
              obtain rfl : e = d0 := by simpa using hfold
              exact (hafter e hst d (List.mem_cons_self _ _)).le
            · exfalso
              have hlt := foldl_day_change_strict rs m xs st hch
              rw [← hpeq] at hlt
              linarith
        · refine ih st hpw2 hok hninv ?_ d0 hfold d hmem hq hpeq
          intro e he dd hdd
          exact hafter e he dd (List.mem_cons_of_mem _ hdd)

theorem init_state_ok (rs : List CallRecord) (m : Nat) : StateOk rs m init_state := by
  intro d hd
  simp [init_state] at hd

theorem init_state_none_inv : NoneInv init_state := fun _ => rfl

theorem festival_days_pairwise (s e : Nat) :
    List.Pairwise (· < ·) (festival_days s e) := by
  unfold festival_days
  exact List.Pairwise.map _ (fun a b hab => by omega) (List.pairwise_lt_range _)

/-! Characterisation of the per-festival emission. -/

theorem score_festival_isSome_iff (rs : List CallRecord) (t : ℚ) (m : Nat)
    (name : String) (s e : Nat) :
    (score_festival rs t m name s e).isSome = true ↔
      (∃ d0, (scan_festival rs m s e).max_day = some d0) ∧
      t ≤ (scan_festival rs m s e).max_pct := by
  unfold score_festival
  split
  next d0 hd0 =>
    by_cases ht : t ≤ (scan_festival rs m s e).max_pct
    · simp [hd0, ht]
    · simp [hd0, ht]
  next hd0 =>
    simp [hd0]

theorem score_festival_some_elim (rs : List CallRecord) (t : ℚ) (m : Nat)
    (name : String) (s e : Nat) (r : SignificanceResult)
    (h : score_festival rs t m name s e = some r) :
    (scan_festival rs m s e).max_day = some r.max_day ∧
    t ≤ (scan_festival rs m s e).max_pct ∧
    r.max_pct = (scan_festival rs m s e).max_pct ∧
    r.max_count = (scan_festival rs m s e).max_count := by
  unfold score_festival at h
  split at h
  next d0 hd0 =>
    split at h
    next ht =>
      injection h with h2
      subst h2
      exact ⟨hd0, ht, rfl, rfl⟩
    next ht => exact absurd h (by simp)
  next hd0 => exact absurd h (by simp)

/-- C1: a festival interval passed to the significance scorer yields a
SignificanceResult exactly when some day of the inclusive interval has
a call count at or above `min_calls` and a percentage deviation at or
above `threshold_pct`; in particular an interval whose every day is
below the min-calls floor never contributes to the result list, which
(on a non-empty frame with at least one category match) consists
exactly of the per-festival emissions in input order. -/
theorem significance_emitted_iff
    (recs : List CallRecord) (category : String) (threshold_pct : ℚ) (min_calls : Nat)
    (name : String) (start_date end_date : Nat)
    (festivals : List (String × Nat × Nat))
    (h1 : recs ≠ []) (h2 : df_cat_filter recs category ≠ []) :
    ((score_festival (df_cat_filter recs category) threshold_pct min_calls
        name start_date end_date).isSome = true ↔
      ∃ d ∈ festival_days start_date end_date,
        min_calls ≤ counts_get (df_cat_filter recs category) d ∧
        threshold_pct ≤ pct (df_cat_filter recs category) d) ∧
    filter_significant_festivals festivals (some recs) category threshold_pct min_calls
      = festivals.filterMap (fun f =>
          score_festival (df_cat_filter recs category) threshold_pct min_calls f.1 f.2.1 f.2.2) := by
  constructor
  · rw [score_festival_isSome_iff]
    constructor
    · rintro ⟨⟨d0, hd0⟩, ht⟩
      have hok := foldl_ok (df_cat_filter recs category) min_calls
        (festival_days start_date end_date) init_state
        (init_state_ok _ _) d0 hd0
      have hmem := foldl_max_day_mem (df_cat_filter recs category) min_calls
        (festival_days start_date end_date) init_state d0 hd0
      rcases hmem with hm | hm
      · exact ⟨d0, hm, hok.1, hok.2.1 ▸ ht⟩
      · simp [init_state] at hm
    · rintro ⟨d, hd, hq, ht⟩
      refine ⟨?_, ?_⟩
      · exact foldl_qual_some (df_cat_filter recs category) min_calls
          (festival_days start_date end_date) init_state d hd hq init_state_none_inv
      · exact le_trans ht (foldl_pct_le (df_cat_filter recs category) min_calls
          (festival_days start_date end_date) init_state d hd hq)
  · simp [filter_significant_festivals, h1, h2]

/-- C1 witness: on the demo record set, the festival over dates 7–8 is
emitted (date 7 has six crime calls against a weekday baseline of 3.5,
a 500/7 percent increase), and the result list is the per-festival
emission list. -/
theorem significance_emitted_iff_witness :
    ((score_festival (df_cat_filter demoRecs "crime") 30 5 "fest" 7 8).isSome = true ↔
      ∃ d ∈ festival_days 7 8,
        5 ≤ counts_get (df_cat_filter demoRecs "crime") d ∧
        30 ≤ pct (df_cat_filter demoRecs "crime") d) ∧
    filter_significant_festivals [("fest", 7, 8)] (some demoRecs) "crime" 30 5
      = [("fest", 7, 8)].filterMap (fun f =>
          score_festival (df_cat_filter demoRecs "crime") 30 5 f.1 f.2.1 f.2.2) :=
  significance_emitted_iff demoRecs "crime" 30 5 "fest" 7 8 [("fest", 7, 8)]
    (by decide) (by decide)

/-- C2: whenever the scorer emits a result for an interval, the
reported peak day lies in the interval, qualifies under the min-calls
floor, carries its own percentage and count, meets the threshold, has
the maximum percentage among qualifying days, and on ties is the
earliest such day (chronological order, strict running comparison).
Determinism of the scorer is definitional here: the embedding is a
pure function of its arguments. -/
theorem peak_day_characterization
    (rs : List CallRecord) (threshold_pct : ℚ) (min_calls : Nat)
    (name : String) (start_date end_date : Nat) (r : SignificanceResult)
    (h : score_festival rs threshold_pct min_calls name start_date end_date = some r) :
    r.max_day ∈ festival_days start_date end_date ∧
    min_calls ≤ counts_get rs r.max_day ∧
    r.max_pct = pct rs r.max_day ∧
    r.max_count = counts_get rs r.max_day ∧
    threshold_pct ≤ r.max_pct ∧
    (∀ d ∈ festival_days start_date end_date,
      min_calls ≤ counts_get rs d → pct rs d ≤ r.max_pct) ∧
    (∀ d ∈ festival_days start_date end_date,
      min_calls ≤ counts_get rs d → pct rs d = r.max_pct → r.max_day ≤ d) := by
  obtain ⟨hd, ht, hpct, hcnt⟩ := score_festival_some_elim rs threshold_pct min_calls
    name start_date end_date r h
  have hok := foldl_ok rs min_calls (festival_days start_date end_date) init_state
    (init_state_ok _ _) r.max_day hd
  have hmem := foldl_max_day_mem rs min_calls (festival_days start_date end_date)
    init_state r.max_day hd
  refine ⟨?_, hok.1, ?_, ?_, ?_, ?_, ?_⟩
  · rcases hmem with hm | hm
    · exact hm
    · simp [init_state] at hm
  · rw [hpct]; exact hok.2.1
  · rw [hcnt]; exact hok.2.2
  · rw [hpct]; exact ht
  · intro d hdm hq
    rw [hpct]
    exact foldl_pct_le rs min_calls (festival_days start_date end_date) init_state d hdm hq
  · intro d hdm hq hpeq
    refine foldl_tie_earliest rs min_calls (festival_days start_date end_date) init_state
      (festival_days_pairwise start_date end_date) (init_state_ok _ _) init_state_none_inv
      ?_ r.max_day hd d hdm hq ?_
    · intro e he
      simp [init_state] at he
    · show pct rs d = (scan_festival rs min_calls start_date end_date).max_pct
      rw [← hpct]; exact hpeq

/-- C2 witness: on the demo record set the emitted result for the
interval 7–8 reports peak day 7 with count 6 and percentage 500/7, and
the characterisation holds there. -/
theorem peak_day_characterization_witness :
    (⟨"fest", 7, 8, 500/7, 6, 7⟩ : SignificanceResult).max_day ∈ festival_days 7 8 ∧
    5 ≤ counts_get (df_cat_filter demoRecs "crime")
        (⟨"fest", 7, 8, 500/7, 6, 7⟩ : SignificanceResult).max_day ∧
    (⟨"fest", 7, 8, 500/7, 6, 7⟩ : SignificanceResult).max_pct
      = pct (df_cat_filter demoRecs "crime")
          (⟨"fest", 7, 8, 500/7, 6, 7⟩ : SignificanceResult).max_day ∧
    (⟨"fest", 7, 8, 500/7, 6, 7⟩ : SignificanceResult).max_count
      = counts_get (df_cat_filter demoRecs "crime")
          (⟨"fest", 7, 8, 500/7, 6, 7⟩ : SignificanceResult).max_day ∧
    (30 : ℚ) ≤ (⟨"fest", 7, 8, 500/7, 6, 7⟩ : SignificanceResult).max_pct ∧
    (∀ d ∈ festival_days 7 8,
      5 ≤ counts_get (df_cat_filter demoRecs "crime") d →
      pct (df_cat_filter demoRecs "crime") d
        ≤ (⟨"fest", 7, 8, 500/7, 6, 7⟩ : SignificanceResult).max_pct) ∧
    (∀ d ∈ festival_days 7 8,
      5 ≤ counts_get (df_cat_filter demoRecs "crime") d →
      pct (df_cat_filter demoRecs "crime") d
        = (⟨"fest", 7, 8, 500/7, 6, 7⟩ : SignificanceResult).max_pct →
      (⟨"fest", 7, 8, 500/7, 6, 7⟩ : SignificanceResult).max_day ≤ d) :=
  peak_day_characterization (df_cat_filter demoRecs "crime") 30 5 "fest" 7 8
    ⟨"fest", 7, 8, 500/7, 6, 7⟩ (by
      rw [show df_cat_filter demoRecs "crime"
          = [⟨"crime", 7⟩, ⟨"crime", 7⟩, ⟨"crime", 7⟩, ⟨"crime", 7⟩, ⟨"crime", 7⟩,
             ⟨"crime", 7⟩, ⟨"crime", 0⟩] from by decide]
      norm_num [score_festival, scan_festival, festival_days, List.range_succ, day_step,
        init_state, pct, baseline_adj, baseline, counts_get, counts_index, counts_size,
        series_mean, List.dedup_cons_of_mem, List.dedup_cons_of_not_mem, List.dedup_nil,
        List.foldl_cons, List.foldl_nil,
        show ¬(([7, 0] : List Nat) = []) from by decide])

/-! Relating the list-based count table to its Finset reformulation. -/

theorem counts_get_eq_counts_size (rs : List CallRecord) (d : Nat) :
    counts_get rs d = counts_size rs d := by
  unfold counts_get
  by_cases hd : d ∈ counts_index rs
  · rw [if_pos hd]
  · rw [if_neg hd]
    symm
    rw [counts_size, List.length_eq_zero, List.filter_eq_nil_iff]
    intro r hr hbeq
    apply hd
    rw [counts_index, List.mem_dedup]
    have hrd : r.date = d := by simpa using hbeq
    exact hrd ▸ List.mem_map_of_mem _ hr

theorem toFinset_counts_index (rs : List CallRecord) :
    (counts_index rs).toFinset = specDates rs := by
  ext x
  simp [counts_index, specDates, List.mem_dedup]

theorem nodup_toFinset_sum (l : List Nat) (hl : l.Nodup) (f : Nat → ℚ) :
    l.toFinset.sum f = (l.map f).sum := by
  induction l with
  | nil => simp
  | cons x xs ih =>
      rcases List.nodup_cons.mp hl with ⟨hx, hxs⟩
      rw [List.toFinset_cons, Finset.sum_insert (by simpa using hx),
        List.map_cons, List.sum_cons, ih hxs]

theorem nodup_toFinset_card (l : List Nat) (hl : l.Nodup) :
    l.toFinset.card = l.length := by
  rw [List.card_toFinset, hl.dedup]

theorem series_mean_eq_specMean (rs : List CallRecord) (l : List Nat) (hl : l.Nodup) :
    series_mean rs l = specMean rs l.toFinset := by
  rw [series_mean, specMean, nodup_toFinset_sum l hl, nodup_toFinset_card l hl]

theorem baseline_unfold (rs : List CallRecord) (cur : Nat) :
    baseline rs cur =
      if (counts_index rs).filter (fun x => x % 7 == cur % 7) = [] then
        (if counts_index rs = [] then 0 else series_mean rs (counts_index rs))
      else series_mean rs ((counts_index rs).filter (fun x => x % 7 == cur % 7)) := rfl

theorem baseline_eq_specBaseline (rs : List CallRecord) (d : Nat) :
    baseline rs d = specBaseline rs d := by
  have hnd : (counts_index rs).Nodup := List.nodup_dedup _
  have hfil : ((counts_index rs).filter (fun x => x % 7 == d % 7)).toFinset
      = (specDates rs).filter (fun x => x % 7 = d % 7) := by
    ext x
    simp [counts_index, specDates, List.mem_dedup, List.mem_filter]
  rw [baseline_unfold, specBaseline]
  by_cases hswd : (counts_index rs).filter (fun x => x % 7 == d % 7) = []
  · rw [if_pos hswd]
    have h1 : ¬ ((specDates rs).filter (fun x => x % 7 = d % 7)).Nonempty := by
      rw [← hfil, hswd]
      simp
    rw [if_neg h1]
    by_cases hidx : counts_index rs = []
    · rw [if_pos hidx]
      have h2 : ¬ (specDates rs).Nonempty := by
        rw [← toFinset_counts_index, hidx]
        simp
      rw [if_neg h2]
    · rw [if_neg hidx]
      have h2 : (specDates rs).Nonempty := by
        rw [← toFinset_counts_index]
        exact (List.toFinset_nonempty_iff _).mpr hidx
      rw [if_pos h2, series_mean_eq_specMean rs _ hnd, toFinset_counts_index]
  · rw [if_neg hswd]
    have h1 : ((specDates rs).filter (fun x => x % 7 = d % 7)).Nonempty := by
      rw [← hfil]
      exact (List.toFinset_nonempty_iff _).mpr hswd
    rw [if_pos h1, series_mean_eq_specMean rs _ (hnd.filter _), hfil]

/-- C3: the per-day percentage used by the scorer agrees with the
spec's formulation: the day count defaults to 0 for dates absent from
the category-wide count table, the baseline is the mean over all table
dates sharing the day's weekday with fallback to the overall table
mean, a non-positive baseline is adjusted to 1, and the percentage is
the relative deviation times 100. -/
theorem pct_matches_spec (catRecs : List CallRecord) (d : Nat) :
    counts_get catRecs d = counts_size catRecs d ∧
    baseline catRecs d = specBaseline catRecs d ∧
    pct catRecs d = specPct catRecs d := by
  refine ⟨counts_get_eq_counts_size _ _, baseline_eq_specBaseline _ _, ?_⟩
  rw [pct, specPct, baseline_adj, counts_get_eq_counts_size, baseline_eq_specBaseline]

/-- C4: the scorer returns the empty result list (rather than failing)
for a missing frame, for an empty frame, and for any record set in
which no record's category matches the requested one under
case-insensitive comparison. -/
theorem scorer_empty_inputs (festivals : List (String × Nat × Nat)) (category : String)
    (threshold_pct : ℚ) (min_calls : Nat) :
    filter_significant_festivals festivals none category threshold_pct min_calls = [] ∧
    filter_significant_festivals festivals (some []) category threshold_pct min_calls = [] ∧
    ∀ recs : List CallRecord, (∀ r ∈ recs, py_lower r.category ≠ py_lower category) →
      filter_significant_festivals festivals (some recs) category threshold_pct min_calls = [] := by
  refine ⟨rfl, rfl, ?_⟩
  intro recs h
  have hcat : df_cat_filter recs category = [] := by
    rw [df_cat_filter, List.filter_eq_nil_iff]
    intro r hr hbeq
    exact h r hr (by simpa [lower_match] using hbeq)
  by_cases hrecs : recs = []
  · subst hrecs; rfl
  · simp [filter_significant_festivals, hrecs, hcat]

/-- C4 witness: a record set whose only category is "fire" produces no
result for the requested category "crime". -/
theorem scorer_empty_inputs_witness :
    filter_significant_festivals [("fest", 7, 8)] (some [⟨"fire", 3⟩]) "crime" 30 5 = [] :=
  (scorer_empty_inputs [("fest", 7, 8)] "crime" 30 5).2.2 [⟨"fire", 3⟩] (by decide)

/-! The tagger walks the catalog in order. -/

theorem tag_none_eq (fests : List FestivalInterval) :
    tag_festival_for_row fests none = "Non-Festival" := by
  induction fests with
  | nil => rfl
  | cons f rest ih => simpa [tag_festival_for_row] using ih

theorem tag_no_containing (t : ℚ) :
    ∀ fests : List FestivalInterval, (∀ f ∈ fests, ¬(f.start_ts ≤ t ∧ t ≤ f.end_ts)) →
      tag_festival_for_row fests (some t) = "Non-Festival" := by
  intro fests
  induction fests with
  | nil => intro _; rfl
  | cons f rest ih =>
      intro h
      show (if f.start_ts ≤ t ∧ t ≤ f.end_ts then f.name else tag_festival_for_row rest (some t))
        = "Non-Festival"
      rw [if_neg (h f (List.mem_cons_self _ _))]
      exact ih (fun g hg => h g (List.mem_cons_of_mem _ hg))

theorem tag_first_containing (t : ℚ) (f : FestivalInterval) :
    ∀ (pre post : List FestivalInterval),
      (∀ g ∈ pre, ¬(g.start_ts ≤ t ∧ t ≤ g.end_ts)) →
      f.start_ts ≤ t → t ≤ f.end_ts →
      tag_festival_for_row (pre ++ f :: post) (some t) = f.name := by
  intro pre
  induction pre with
  | nil =>
      intro post _ h1 h2
      show (if f.start_ts ≤ t ∧ t ≤ f.end_ts then f.name else tag_festival_for_row post (some t))
        = f.name
      rw [if_pos ⟨h1, h2⟩]
  | cons g rest ih =>
      intro post hpre h1 h2
      show (if g.start_ts ≤ t ∧ t ≤ g.end_ts then g.name
          else tag_festival_for_row (rest ++ f :: post) (some t)) = f.name
      rw [if_neg (hpre g (List.mem_cons_self _ _))]
      exact ih post (fun g2 hg2 => hpre g2 (List.mem_cons_of_mem _ hg2)) h1 h2

/-- C5: the tagger assigns the name of the first interval in catalog
order whose closed interval contains the record's timestamp,
"Non-Festival" when no interval contains it, and "Non-Festival"
unconditionally for an absent or unparseable timestamp. -/
theorem tagger_first_match (fests : List FestivalInterval) (ts : Option ℚ) :
    (ts = none → tag_festival_for_row fests ts = "Non-Festival") ∧
    (∀ t, ts = some t → (∀ f ∈ fests, ¬(f.start_ts ≤ t ∧ t ≤ f.end_ts)) →
      tag_festival_for_row fests ts = "Non-Festival") ∧
    (∀ t f pre post, ts = some t → fests = pre ++ f :: post →
      (∀ g ∈ pre, ¬(g.start_ts ≤ t ∧ t ≤ g.end_ts)) →
      f.start_ts ≤ t → t ≤ f.end_ts →
      tag_festival_for_row fests ts = f.name) := by
  refine ⟨?_, ?_, ?_⟩
  · rintro rfl
    exact tag_none_eq fests
  · rintro t rfl h
    exact tag_no_containing t fests h
  · rintro t f pre post rfl rfl hpre h1 h2
    exact tag_first_containing t f pre post hpre h1 h2

/-- C5 witness: with two overlapping intervals the first one in
catalog order wins for a timestamp contained in both. -/
theorem tagger_first_match_witness :
    tag_festival_for_row [⟨"A", 0, 10⟩, ⟨"B", 5, 15⟩] (some 7) = "A" :=
  (tagger_first_match [⟨"A", 0, 10⟩, ⟨"B", 5, 15⟩] (some 7)).2.2 7 ⟨"A", 0, 10⟩ [] [⟨"B", 5, 15⟩]
    rfl rfl (fun g hg => absurd hg (List.not_mem_nil g)) (by norm_num) (by norm_num)

/-- C6: tagging every record of any dataset against an empty festival
catalog yields "Non-Festival" for all of the records. -/
theorem empty_catalog_all_non_festival (tss : List (Option ℚ)) :
    (tss.map (tag_festival_for_row [])).all (fun s => s == "Non-Festival") = true := by
  rw [List.all_eq_true]
  intro s hs
  rw [List.mem_map] at hs
  obtain ⟨ts, _, rfl⟩ := hs
  rfl

/-- C7: every catalog interval satisfies end ≥ start; a date-only
event's exclusive source end is made inclusive by subtracting one day,
a timed event's end passes through, and the converted end is clamped
up to the start when it would fall earlier (the normalised end is the
maximum of the start and the converted end). -/
theorem ics_interval_invariant (events : List IcsEvent) :
    (∀ f ∈ fetch_festivals_from_ics events, f.start_ts ≤ f.end_ts) ∧
    (∀ ev : IcsEvent, (normalize_event ev).start_ts = ev.dtstart ∧
      (normalize_event ev).end_ts
        = max ev.dtstart (if ev.date_only then ev.dtend - 1 else ev.dtend)) := by
  have hnorm : ∀ ev : IcsEvent, (normalize_event ev).start_ts = ev.dtstart ∧
      (normalize_event ev).end_ts
        = max ev.dtstart (if ev.date_only then ev.dtend - 1 else ev.dtend) := by
    intro ev
    refine ⟨rfl, ?_⟩
    show (if (if ev.date_only then ev.dtend - 1 else ev.dtend) < ev.dtstart then ev.dtstart
        else (if ev.date_only then ev.dtend - 1 else ev.dtend))
      = max ev.dtstart (if ev.date_only then ev.dtend - 1 else ev.dtend)
    rcases lt_or_le (if ev.date_only then ev.dtend - 1 else ev.dtend) ev.dtstart with h | h
    · rw [if_pos h, max_eq_left h.le]
    · rw [if_neg (not_lt.mpr h), max_eq_right h]
  refine ⟨?_, hnorm⟩
  intro f hf
  rw [fetch_festivals_from_ics, List.mem_map] at hf
  obtain ⟨ev, _, rfl⟩ := hf
  rw [(hnorm ev).1, (hnorm ev).2]
  exact le_max_left _ _

/-- C7 witness: an all-day event with date-only bounds 3 and exclusive
end 5 yields the inclusive interval with end 4, which is ≥ its start. -/
theorem ics_interval_invariant_witness :
    (normalize_event ⟨"X", true, 3, 5⟩).start_ts ≤ (normalize_event ⟨"X", true, 3, 5⟩).end_ts :=
  (ics_interval_invariant [⟨"X", true, 3, 5⟩]).1 (normalize_event ⟨"X", true, 3, 5⟩)
    (List.mem_map_of_mem _ (List.mem_singleton_self _))

/-- C8 counterexample to the claim as stated: an infinite latitude
value coerces to a non-NaN numeric value, so the code flags the row as
having coordinates even though the latitude is not finite — the iff
with "both parse to finite numbers" fails. -/
theorem has_coords_finite_counterexample :
    ¬ (∀ lat lon : RawCell, has_coords lat lon = true ↔
        (is_finite_num (to_numeric_coerce lat) = true ∧
         is_finite_num (to_numeric_coerce lon) = true)) := by
  intro h
  have h2 := (h (RawCell.infinite true) (RawCell.num 0)).mp rfl
  exact absurd h2.1 (by decide)

/-- C8 (amended): has_coords is true iff both coordinate cells coerce
to non-NaN numeric values — missing or non-numeric text yields false
for the row without raising, while numeric values (finite or infinite)
count as present coordinates. -/
theorem has_coords_amended (lat lon : RawCell) :
    has_coords lat lon = (parses_to_number lat && parses_to_number lon) := by
  cases lat <;> cases lon <;> rfl

/-! The hourly aggregation table. -/

theorem lookup_pairs (f : Nat → Nat) (l : List Nat) (a : Nat) :
    (l.map (fun x => (x, f x))).lookup a = if a ∈ l then some (f a) else none := by
  induction l with
  | nil => rfl
  | cons x xs ih =>
      by_cases hax : a = x
      · subst hax
        simp [List.lookup]
      · have hbeq : (a == x) = false := by simpa using hax
        simp [List.lookup, hbeq, ih, List.mem_cons, hax]

theorem groupby_lookup (recs : List (Option Nat)) (h : Nat) :
    ((groupby_hour_size recs).lookup h).getD 0 = (valid_hours recs).count h := by
  rw [groupby_hour_size, lookup_pairs]
  by_cases hm : h ∈ (valid_hours recs).dedup
  · rw [if_pos hm]
    rfl
  · rw [if_neg hm]
    have hc : (valid_hours recs).count h = 0 := by
      rw [List.count_eq_zero]
      intro hmem
      exact hm (List.mem_dedup.mpr hmem)
    simp [hc]

/-- C9: hourly aggregation always returns exactly 24 rows, the row at
index i being hour i paired with the number of records whose parsed
hour equals i (zero when the hour has no calls). -/
theorem hourly_always_24 (recs : List (Option Nat)) :
    (agg_calls_by_hour recs).length = 24 ∧
    (∀ h c, (h, c) ∈ agg_calls_by_hour recs ↔
      h < 24 ∧ c = (valid_hours recs).count h) ∧
    (∀ i, (hi : i < (agg_calls_by_hour recs).length) →
      (agg_calls_by_hour recs).get ⟨i, hi⟩ = (i, (valid_hours recs).count i)) := by
  have hlen : (agg_calls_by_hour recs).length = 24 := by
    rw [agg_calls_by_hour, List.length_map, List.length_range]
  refine ⟨hlen, ?_, ?_⟩
  · intro h c
    rw [agg_calls_by_hour]
    constructor
    · intro hmem
      rw [List.mem_map] at hmem
      obtain ⟨x, hx, hpair⟩ := hmem
      rw [List.mem_range] at hx
      rw [Prod.mk.injEq] at hpair
      obtain ⟨rfl, rfl⟩ := hpair
      exact ⟨hx, groupby_lookup recs x⟩
    · rintro ⟨hh, rfl⟩
      rw [List.mem_map]
      exact ⟨h, List.mem_range.mpr hh, by rw [groupby_lookup]⟩
  · intro i hi
    rw [List.get_eq_getElem]
    simp only [agg_calls_by_hour, List.getElem_map, List.getElem_range]
    rw [groupby_lookup]

/-- C9 witness: two calls at hour 3 (and one bad-timestamp row) give a
table whose row 3 is (3, its count) — concretely (3, 2). -/
theorem hourly_always_24_witness :
    (agg_calls_by_hour [some 3, none, some 3]).get ⟨3, by decide⟩
      = (3, (valid_hours [some 3, none, some 3]).count 3) :=
  (hourly_always_24 [some 3, none, some 3]).2.2 3 (by decide)

/-! The "nan" category bucket. -/

theorem count_none_le_count_nan (rows : List (Option String)) :
    rows.count none ≤ (rows.map norm_category).count "nan" := by
  induction rows with
  | nil => exact le_refl _
  | cons x xs ih =>
      cases x with
      | none =>
          rw [List.map_cons, List.count_cons, List.count_cons]
          have h1 : (if ((none : Option String) == none) = true then 1 else 0) = 1 := rfl
          have h2 : (if (norm_category none == "nan") = true then 1 else 0) = 1 := rfl
          rw [h1, h2]
          omega
      | some s =>
          rw [List.map_cons, List.count_cons, List.count_cons]
          have h1 : (if ((some s : Option String) == none) = true then 1 else 0) = 0 := rfl
          rw [h1]
          omega

/-- C10: a missing raw category is normalised to the literal string
"nan": such rows survive preprocessing (row count preserved), match
the significance scorer's category filter for the requested category
"nan", and land in the "nan" bucket of the category distribution,
whose count is at least the number of missing-category rows. -/
theorem nan_category_bucket (rows : List (Option String)) :
    norm_category none = "nan" ∧
    (preprocess_categories rows).length = rows.length ∧
    (∀ recs : List CallRecord, ∀ r ∈ recs, r.category = norm_category none →
      r ∈ df_cat_filter recs "nan") ∧
    (none ∈ rows →
      ("nan", (preprocess_categories rows).count "nan")
        ∈ category_distribution (preprocess_categories rows) ∧
      rows.count none ≤ (preprocess_categories rows).count "nan") := by
  refine ⟨rfl, List.length_map _ _, ?_, ?_⟩
  · intro recs r hr hcat
    rw [df_cat_filter, List.mem_filter]
    refine ⟨hr, ?_⟩
    rw [lower_match, hcat]
    rfl
  · intro hnone
    have hmem : "nan" ∈ preprocess_categories rows := by
      rw [preprocess_categories, List.mem_map]
      exact ⟨none, hnone, rfl⟩
    refine ⟨?_, count_none_le_count_nan rows⟩
    rw [category_distribution, List.mem_map]
    exact ⟨"nan", List.mem_dedup.mpr hmem, rfl⟩

/-- C10 witness: a table with one missing category and one " Crime "
category has a "nan" bucket holding the missing row, and the missing
row's record matches the scorer filter for "nan". -/
theorem nan_category_bucket_witness :
    ((⟨"nan", 3⟩ : CallRecord) ∈ df_cat_filter [⟨"nan", 3⟩, ⟨"fire", 4⟩] "nan") ∧
    ("nan", (preprocess_categories [none, some " Crime "]).count "nan")
      ∈ category_distribution (preprocess_categories [none, some " Crime "]) ∧
    [none, some " Crime "].count none
      ≤ (preprocess_categories [none, some " Crime "]).count "nan" :=
  ⟨(nan_category_bucket [none, some " Crime "]).2.2.1 [⟨"nan", 3⟩, ⟨"fire", 4⟩]
      ⟨"nan", 3⟩ (by decide) rfl,
   (nan_category_bucket [none, some " Crime "]).2.2.2 (by decide)⟩

end Helpline
